import Mathlib

/-!
Verification development for the randompic service (Go, package main).

The embedding below translates the pure computational content of the source
into Lean definitions. Strings are modelled as Lean strings (sequences of
characters); all concrete paths in the development are ASCII, where Go byte
indices and character indices coincide. Filesystem access (ListFiles walking
a directory, loadConfig reading config.json) is modelled by passing the
outcome of the call as an explicit parameter of type Except String. The
time-seeded PRNG draw r.Intn(n) of SelectRandomElement is modelled by an
arbitrary natural entropy parameter reduced mod n, which ranges over exactly
the values Intn can return.
-/

namespace Randompic

/-- Embedding of the Config struct of main.go: excluded extensions, excluded
directory substrings, the image root directory and the display interval in
seconds (a Go int, hence a signed 64-bit integer, modelled as Int). -/
structure Config where
  ExcludedExtensions : List String
  ExcludedDirectories : List String
  ImageDirectory : String
  DisplaySeconds : Int
deriving Repr, DecidableEq

/-- Embedding of the contains helper of main.go: linear scan for string
equality. -/
def contains (slice : List String) (str : String) : Bool :=
  slice.any (fun item => item == str)

/-- Embedding of strings.ToLower restricted to ASCII (the Go function also
lower-cases non-ASCII letters; the paths and extensions in this development
are ASCII, where the two agree). -/
def ToLower (s : String) : String :=
  String.mk (s.toList.map Char.toLower)

/-- Substring scan over character lists, the recursion of strings.Contains. -/
def containsSub : List Char → List Char → Bool
  | [], sub => sub.isEmpty
  | c :: rest, sub => sub.isPrefixOf (c :: rest) || containsSub rest sub

/-- Embedding of strings.Contains: does sub occur as a contiguous substring
of s. -/
def Contains (s sub : String) : Bool :=
  containsSub s.toList sub.toList

/-- Embedding of strings.HasPrefix: does s begin with pre. -/
def startsWith (s pre : String) : Bool :=
  pre.toList.isPrefixOf s.toList

/-- Scan of filepath.Ext over the reversed character list: walk from the end
of the path, stop at a path separator with no extension, or return the
suffix from the final dot. -/
def extAux (acc : List Char) : List Char → String
  | [] => ""
  | c :: rest =>
    if c = '/' then ""
    else if c = '.' then String.mk (c :: acc)
    else extAux (c :: acc) rest

/-- Embedding of filepath.Ext (Unix): the suffix beginning at the final dot
in the final slash-separated element of the path, empty if there is none. -/
def Ext (path : String) : String :=
  extAux [] path.toList.reverse

/-- Remove the maximal run of trailing slashes from a character list. -/
def dropTrailingSlashes (cs : List Char) : List Char :=
  (cs.reverse.dropWhile (fun c => c = '/')).reverse

/-- Keep the characters after the last slash of a character list. -/
def afterLastSlash (cs : List Char) : List Char :=
  (cs.reverse.takeWhile (fun c => c != '/')).reverse

/-- Embedding of filepath.Base (Unix): last element of the path after
removing trailing slashes; "." for the empty path, "/" when the path is all
slashes. -/
def Base (path : String) : String :=
  if path = "" then "."
  else
    let stripped := dropTrailingSlashes path.toList
    let last := afterLastSlash stripped
    if last = [] then "/" else String.mk last

/-- The element-processing loop of filepath.Clean: skip empty and dot
elements, let a dotdot element pop the previous kept element when one is
poppable, drop it at the root when the path is rooted, and keep it
otherwise. The accumulator holds the kept elements in reverse order. -/
def cleanComps (rooted : Bool) (acc : List String) : List String → List String
  | [] => acc
  | c :: rest =>
    if c = "" || c = "." then cleanComps rooted acc rest
    else if c = ".." then
      match acc with
      | a :: as =>
        if a = ".." then cleanComps rooted (".." :: a :: as) rest
        else cleanComps rooted as rest
      | [] =>
        if rooted then cleanComps rooted [] rest
        else cleanComps rooted [".."] rest
    else cleanComps rooted (c :: acc) rest

/-- Split a character list at slashes into its path elements, the reading
loop of filepath.Clean. -/
def splitSlashAux (cur : List Char) : List Char → List String
  | [] => [String.mk cur.reverse]
  | c :: rest =>
    if c = '/' then String.mk cur.reverse :: splitSlashAux [] rest
    else splitSlashAux (c :: cur) rest

/-- Path elements of a character list, slash-separated. -/
def splitSlash (cs : List Char) : List String :=
  splitSlashAux [] cs

/-- Embedding of filepath.Clean (Unix): shortest lexically equivalent path,
"." for the empty result, a single slash for the rooted empty result. -/
def Clean (path : String) : String :=
  if path = "" then "."
  else
    let rooted : Bool :=
      match path.toList with
      | c :: _ => c == '/'
      | [] => false
    let comps := (cleanComps rooted [] (splitSlash path.toList)).reverse
    if comps = [] then (if rooted then "/" else ".")
    else (if rooted then "/" else "") ++ String.intercalate "/" comps

/-- Remove the maximal run of trailing non-slash characters, keeping the
final separator, as the index loop of filepath.Dir does before cleaning. -/
def dropLastElement (cs : List Char) : List Char :=
  (cs.reverse.dropWhile (fun c => c != '/')).reverse

/-- Embedding of filepath.Dir (Unix): all but the last element of the path,
cleaned; "." when the path holds no separator. -/
def Dir (path : String) : String :=
  Clean (String.mk (dropLastElement path.toList))

/-- Embedding of SelectRandomElement of main.go. The Go function seeds a
fresh PRNG from the clock and draws r.Intn(len(elements)), a value in
[0, len). The draw is modelled by an arbitrary entropy parameter reduced
mod the length, which ranges over exactly those values. An empty slice
yields the error "the list is empty" before any draw. -/
def SelectRandomElement (elements : List String) (entropy : Nat) :
    Except String String :=
  if h : elements.length = 0 then Except.error "the list is empty"
  else
    Except.ok (elements.get
      ⟨entropy % elements.length, Nat.mod_lt _ (Nat.pos_of_ne_zero h)⟩)

/-- Embedding of selectRandomImage of main.go: on a selection error it logs
and returns the empty string, otherwise the selected element. -/
def selectRandomImage (fileList : List String) (entropy : Nat) : String :=
  match SelectRandomElement fileList entropy with
  | Except.error _ => ""
  | Except.ok image => image

/-- Embedding of the loop of updateImagePeriodically of main.go. One list
entry per elapsed tick carries the entropy of that draw of the PRNG; current
is the value of the shared randomImage variable when the loop is entered,
and the result is its value after the given ticks. Each tick overwrites the
shared variable, under the mutex, with the freshly selected image. -/
def updateImagePeriodically (fileList : List String) (entropies : List Nat)
    (current : String) : String :=
  match entropies with
  | [] => current
  | e :: rest =>
    updateImagePeriodically fileList rest (selectRandomImage fileList e)

/-- The image URL computation of pageHandler of main.go:
"/images" + randomImage[len(imageDirectory):]. The Go slice expression
panics when the index exceeds len(randomImage); the panic is modelled as
none, and the rendered URL as some. -/
def pageHandlerImageURL (imageDirectory randomImage : String) :
    Option String :=
  if randomImage.toList.length < imageDirectory.toList.length then none
  else
    some ("/images" ++
      String.mk (randomImage.toList.drop imageDirectory.toList.length))

/-- The per-file exclusion test of the loop of loadAllImages of main.go: a
file is kept when its lower-cased extension is not an entry of the excluded
extensions, its base name does not start with a dot, and its directory does
not contain any excluded directory substring. -/
def keepFile (config : Config) (file : String) : Bool :=
  !(contains config.ExcludedExtensions (ToLower (Ext file))) &&
  !(startsWith (Base file) ".") &&
  !(config.ExcludedDirectories.any (fun d => Contains (Dir file) d))

/-- Embedding of loadAllImages of main.go. Reading config.json and walking
the image directory are effectful; their outcomes enter as parameters:
configResult is what loadConfig returned, and filesResult what ListFiles
returned on the configured image directory. Either error is logged and
turned into an empty list; otherwise the walked files are filtered by the
exclusion loop. -/
def loadAllImages (configResult : Except String Config)
    (filesResult : Except String (List String)) : List String :=
  match configResult with
  | Except.error _ => []
  | Except.ok config =>
    match filesResult with
    | Except.error _ => []
    | Except.ok files => files.filter (keepFile config)

/-- One second of time.Duration, in nanoseconds. -/
def Second : Int := 1000000000

/-- Reduction of an integer to the signed 64-bit value Go arithmetic on
time.Duration wraps to. -/
def wrap64 (n : Int) : Int := (n + 2 ^ 63) % 2 ^ 64 - 2 ^ 63

/-- The interval main passes to the updater goroutine:
time.Duration(config.DisplaySeconds) * time.Second, 64-bit signed
multiplication in nanoseconds. -/
def updaterInterval (displaySeconds : Int) : Int :=
  wrap64 (displaySeconds * Second)

/-- Rebuilding a string from its character list is the identity. -/
theorem mk_toList (s : String) : String.mk s.toList = s := rfl

/-- The selected image of selectRandomImage is the empty string or an
element of the file list. -/
theorem selectRandomImage_empty_or_mem (fileList : List String)
    (entropy : Nat) :
    selectRandomImage fileList entropy = "" ∨
      selectRandomImage fileList entropy ∈ fileList := by
  unfold selectRandomImage SelectRandomElement
  by_cases h : fileList.length = 0
  · rw [dif_pos h]
    exact Or.inl rfl
  · rw [dif_neg h]
    exact Or.inr (List.get_mem _ _ _)

/-- Invariant of the updater loop: a run started at an empty-or-member
selection ends at an empty-or-member selection. -/
theorem updateImagePeriodically_inv (fileList : List String)
    (entropies : List Nat) (current : String)
    (h : current = "" ∨ current ∈ fileList) :
    updateImagePeriodically fileList entropies current = "" ∨
      updateImagePeriodically fileList entropies current ∈ fileList := by
  induction entropies generalizing current with
  | nil => exact h
  | cons e rest ih =>
    exact ih _ (selectRandomImage_empty_or_mem fileList e)

/-- A run of the updater over the empty file list keeps the initial empty
selection. -/
theorem updater_empty_run (entropies : List Nat) :
    updateImagePeriodically [] entropies "" = "" := by
  induction entropies with
  | nil => rfl
  | cons e rest ih =>
    simpa [updateImagePeriodically, selectRandomImage,
      SelectRandomElement] using ih

/-- Claim C6: for every non-empty sequence of paths the Selector succeeds,
and the returned value is an element of the input sequence. -/
theorem selector_membership (elements : List String) (entropy : Nat)
    (h : elements ≠ []) :
    ∃ v, SelectRandomElement elements entropy = Except.ok v ∧
      v ∈ elements := by
  have hlen : ¬ elements.length = 0 := by simpa using h
  unfold SelectRandomElement
  rw [dif_neg hlen]
  exact ⟨_, rfl, List.get_mem _ _ _⟩

/-- Witness for C6 at the two-element list with entropy 5. -/
theorem selector_membership_witness :
    ∃ v, SelectRandomElement ["a", "b"] 5 = Except.ok v ∧
      v ∈ ["a", "b"] :=
  selector_membership ["a", "b"] 5 (by decide)

/-- Claim C7: the Selector on the empty sequence returns exactly the
documented error "the list is empty" and no selection; the error branch is
taken exactly when the input has zero elements. -/
theorem selector_empty_error (elements : List String) (entropy : Nat) :
    (elements = [] →
      SelectRandomElement elements entropy =
        Except.error "the list is empty") ∧
    ((∃ msg, SelectRandomElement elements entropy = Except.error msg) →
      elements = []) := by
  constructor
  · rintro rfl
    rfl
  · rintro ⟨msg, hmsg⟩
    by_contra hne
    have hlen : ¬ elements.length = 0 := by simpa using hne
    unfold SelectRandomElement at hmsg
    rw [dif_neg hlen] at hmsg
    exact Except.noConfusion hmsg

/-- Witness for C7 at the empty list with entropy 0. -/
theorem selector_empty_error_witness :
    SelectRandomElement [] 0 = Except.error "the list is empty" :=
  (selector_empty_error [] 0).1 rfl

/-- Claim C8: with a one-element file list, the first tick of the updater
publishes that element, whatever entropy the PRNG draw carries and whatever
the shared selection held before. -/
theorem single_file_first_tick (p : String) (entropy : Nat)
    (current : String) :
    updateImagePeriodically [p] [entropy] current = p := by
  simp [updateImagePeriodically, selectRandomImage, SelectRandomElement,
    Nat.mod_one]

/-- Claim C9: after any number of ticks of the updater, started at the
initial empty shared selection, the published value is the empty string or
an element of the fixed file list. -/
theorem updater_selection_invariant (fileList : List String)
    (entropies : List Nat) :
    updateImagePeriodically fileList entropies "" = "" ∨
      updateImagePeriodically fileList entropies "" ∈ fileList :=
  updateImagePeriodically_inv fileList entropies "" (Or.inl rfl)

/-- Claim C1: with an empty file list every Selector call fails, and each
further tick of the updater leaves the published shared selection exactly
as it was: the write the tick performs stores the same empty value along
every reachable run. -/
theorem empty_list_tick_unchanged (entropies : List Nat) (e : Nat) :
    updateImagePeriodically [] (entropies ++ [e]) "" =
      updateImagePeriodically [] entropies "" := by
  rw [updater_empty_run, updater_empty_run]

/-- Unpacking of a successful keepFile test into its three clauses. -/
theorem keepFile_eq_true (config : Config) (file : String)
    (h : keepFile config file = true) :
    contains config.ExcludedExtensions (ToLower (Ext file)) = false ∧
    startsWith (Base file) "." = false ∧
    ∀ d ∈ config.ExcludedDirectories, Contains (Dir file) d = false := by
  simp only [keepFile, Bool.and_eq_true, Bool.not_eq_true'] at h
  obtain ⟨⟨h1, h2⟩, h3⟩ := h
  refine ⟨h1, h2, ?_⟩
  intro d hd
  cases hq : Contains (Dir file) d with
  | false => rfl
  | true =>
    have : config.ExcludedDirectories.any
        (fun x => Contains (Dir file) x) = true :=
      List.any_eq_true.mpr ⟨d, hd, hq⟩
    rw [h3] at this
    exact Bool.noConfusion this

/-- Claim C2, amended: every file kept by the exclusion pass of
loadAllImages has a lower-cased extension that is verbatim absent from the
excluded-extensions entries, a base name that does not start with a dot,
and a directory containing no excluded-directory substring. The original
case-insensitive reading fails because the configured entries are matched
without lower-casing, see the counterexample. -/
theorem filter_excludes_amended (config : Config) (files : List String)
    (f : String)
    (hf : f ∈ loadAllImages (Except.ok config) (Except.ok files)) :
    contains config.ExcludedExtensions (ToLower (Ext f)) = false ∧
    startsWith (Base f) "." = false ∧
    ∀ d ∈ config.ExcludedDirectories, Contains (Dir f) d = false := by
  have hmem : f ∈ files.filter (keepFile config) := hf
  exact keepFile_eq_true config f (List.mem_filter.mp hmem).2

/-- Witness for the amended C2 at the configuration of the specification
example. -/
theorem filter_excludes_amended_witness :
    contains (Config.mk [".mov"] ["trash"] "/data" 5).ExcludedExtensions
      (ToLower (Ext "/data/a.jpg")) = false ∧
    startsWith (Base "/data/a.jpg") "." = false ∧
    ∀ d ∈ (Config.mk [".mov"] ["trash"] "/data" 5).ExcludedDirectories,
      Contains (Dir "/data/a.jpg") d = false :=
  filter_excludes_amended (Config.mk [".mov"] ["trash"] "/data" 5)
    ["/data/a.jpg", "/data/b.mov", "/data/trash/c.jpg"] "/data/a.jpg"
    (by decide)

/-- Counterexample to C2 as stated: with the excluded-extensions entry
".MP4" the file /data/b.mp4 survives the filter, although its extension
".mp4" matches that entry case-insensitively (their lower-casings by the
programs own ToLower coincide). The filter lower-cases only the extension
of the file, never the configured entry. -/
theorem filter_case_sensitivity_cex :
    "/data/b.mp4" ∈ loadAllImages
        (Except.ok (Config.mk [".MP4"] [] "/data" 5))
        (Except.ok ["/data/b.mp4"]) ∧
    ".MP4" ∈ (Config.mk [".MP4"] [] "/data" 5).ExcludedExtensions ∧
    ToLower (Ext "/data/b.mp4") = ToLower ".MP4" :=
  ⟨by decide, by decide, by decide⟩

/-- Claim C3, amended: whenever the current selection literally extends the
image root, the rendered URL is the selection with the root prefix removed
and /images prepended, and the /mnt/photos example of the specification
produces exactly /images/2023/a.jpg. The further clause of the claim, that
the URL never contains the raw image root, is refuted separately: the code
strips by length, so the remainder may itself contain the root. -/
theorem page_url_strips_root (root rest : String) :
    pageHandlerImageURL root (root ++ rest) = some ("/images" ++ rest) ∧
    pageHandlerImageURL "/mnt/photos" "/mnt/photos/2023/a.jpg" =
      some "/images/2023/a.jpg" := by
  constructor
  · have hl : (root ++ rest).toList = root.toList ++ rest.toList := rfl
    unfold pageHandlerImageURL
    rw [hl, if_neg (by simp only [List.length_append]; omega),
      List.drop_left, mk_toList]
  · decide

/-- Counterexample to C3 as stated: for image root /mnt/photos and the
selection /mnt/photos/mnt/photos/a.jpg the rendered URL is
/images/mnt/photos/a.jpg, which does contain the raw image root as a
substring. -/
theorem page_url_contains_root_cex :
    pageHandlerImageURL "/mnt/photos" "/mnt/photos/mnt/photos/a.jpg" =
      some "/images/mnt/photos/a.jpg" ∧
    Contains "/images/mnt/photos/a.jpg" "/mnt/photos" = true :=
  ⟨by decide, by decide⟩

/-- Claim C4, amended: with the empty current selection, the slice of the
URL computation is out of range for every non-empty image root, so the
handler panics instead of rendering (modelled by none); only the empty
image root yields the degraded /images link of the claim. -/
theorem page_url_empty_selection (root : String) :
    (root = "" → pageHandlerImageURL root "" = some "/images") ∧
    (root ≠ "" → pageHandlerImageURL root "" = none) := by
  constructor
  · rintro rfl
    rfl
  · intro h
    have hne : root.toList ≠ [] := by
      intro hnil
      apply h
      cases root with
      | mk data =>
        simp only [String.toList] at hnil
        rw [hnil]
    have hpos : "".toList.length < root.toList.length := by
      simpa using List.length_pos.mpr hne
    unfold pageHandlerImageURL
    rw [if_pos hpos]

/-- Witness for the amended C4 at the image root /mnt/photos. -/
theorem page_url_empty_selection_witness :
    pageHandlerImageURL "/mnt/photos" "" = none :=
  (page_url_empty_selection "/mnt/photos").2 (by decide)

/-- Counterexample to C4 as stated: with image root /mnt/photos and the
empty current selection, the URL computation indexes the selection out of
range, the modelled panic none; no page with a broken image link is
produced. -/
theorem page_empty_selection_panic_cex :
    pageHandlerImageURL "/mnt/photos" "" = none := by
  decide

/-- Claim C5, amended: no minimum interval is enforced anywhere; absent
64-bit overflow, the interval handed to the updater is exactly the
configured displaySeconds in nanoseconds, so it is at least one second
precisely when the configured value is at least 1. A configuration of 0
gives a zero interval, see the counterexample. -/
theorem interval_iff_display (d : Int)
    (hlo : -(2 ^ 63) ≤ d * Second) (hhi : d * Second < 2 ^ 63) :
    Second ≤ updaterInterval d ↔ 1 ≤ d := by
  have hS : (0 : Int) < Second := by decide
  have hid : updaterInterval d = d * Second := by
    unfold updaterInterval wrap64
    have h2 : (2 : Int) ^ 64 = 2 ^ 63 + 2 ^ 63 := by norm_num
    rw [Int.emod_eq_of_lt (by linarith) (by linarith)]
    ring
  rw [hid]
  constructor
  · intro hs
    by_contra hd
    push_neg at hd
    have hd0 : d ≤ 0 := by omega
    nlinarith
  · intro hd
    nlinarith

/-- Witness for the amended C5 at the configured value 5. -/
theorem interval_iff_display_witness :
    Second ≤ updaterInterval 5 :=
  (interval_iff_display 5 (by decide) (by decide)).mpr (by decide)

/-- Counterexample to C5 as stated: the configuration with displaySeconds 0
passes through loadConfig unclamped and yields a zero updater interval,
below one second. -/
theorem interval_no_minimum_cex :
    updaterInterval (Config.mk [] [] "/mnt/photos" 0).DisplaySeconds = 0 ∧
    updaterInterval (Config.mk [] [] "/mnt/photos" 0).DisplaySeconds <
      Second :=
  ⟨by decide, by decide⟩

/-- Claim C10: loadAllImages returns the empty list whenever loading the
configuration or walking the directory failed, and otherwise a sublist of
the raw walked list: every kept path occurs in the raw list, relative
order is preserved, and no occurrence is duplicated or introduced. -/
theorem load_sublist (configResult : Except String Config)
    (filesResult : Except String (List String)) :
    (∀ msg, configResult = Except.error msg →
      loadAllImages configResult filesResult = []) ∧
    (∀ msg, filesResult = Except.error msg →
      loadAllImages configResult filesResult = []) ∧
    (∀ config files, configResult = Except.ok config →
      filesResult = Except.ok files →
      List.Sublist (loadAllImages configResult filesResult) files) := by
  refine ⟨?_, ?_, ?_⟩
  · rintro msg rfl
    rfl
  · rintro msg rfl
    cases configResult <;> rfl
  · rintro config files rfl rfl
    exact List.filter_sublist files

/-- Witness for C10 at a failed configuration load. -/
theorem load_sublist_witness :
    loadAllImages (Except.error "no such file")
      (Except.ok ["/mnt/photos/a.jpg"]) = [] :=
  (load_sublist (Except.error "no such file")
    (Except.ok ["/mnt/photos/a.jpg"])).1 "no such file" rfl

end Randompic

